import Mathlib

/-!
Shallow embedding of the batch-scoring reader core
(`datarobot_batch_scoring/reader.py`): the chunking generator
(`iter_chunks`, `BatchGenerator`), the two row readers (`FastReader`,
`SlowReader`), the producer loop (`Shovel._shove`) and the batch-size
estimator (`auto_sampler`), together with theorems about the behaviour
this code exhibits.

Modelling conventions:
  * Rows are abstract (`Row : Type`); a decoded text file is a list of
    physical lines, each stored without its line terminator.
  * Python `int` arithmetic in `auto_sampler` is over `Nat`; the two
    `int(x / y)` steps are floor divisions of non-negative quantities,
    which coincide with `Nat` division.
  * Inter-process machinery (queues, shared bytes) is modelled by the
    sequences of values written to it; the shared abort flag is a
    function from the number of completed queue pushes to the value the
    producer observes when it polls the flag after that push.
-/

namespace BatchScoring

/-- Modelled from the spec: the `Batch` record comes from `consts.py`,
which is not among the sources here.  Field names follow the constructor
call `Batch(rows_read, n_rows, fieldnames, chunk, self.rty_cnt)` and the
access `batch.id` in `reader.py`; the spec calls these fields offset,
rowCount, fieldnames, rows and retryBudget. -/
structure Batch (Row : Type) where
  id : Nat
  rows : Nat
  fieldnames : List String
  data : List Row
  rty_cnt : Nat
deriving DecidableEq

/-- Modelled from the spec: error-reporting paths forward a batch with its
rows payload replaced by an empty sequence (`batch._replace("data", [])`
in `Shovel._shove`; `consts.py` is not among the sources, so the spec's
description of the replacement is taken as authoritative). -/
def Batch.replaceData {Row : Type} (b : Batch Row) : Batch Row :=
  { b with data := [] }

/-- The loop of `iter_chunks(csvfile, chunk_size)`: rows are appended to the
accumulator `chunk`; once `len(chunk) >= chunk_size` the chunk is yielded and
the accumulator reset; a non-empty leftover chunk is yielded at the end. -/
def iter_chunksGo {Row : Type} (chunk_size : Nat) :
    List Row → List Row → List (List Row)
  | [], chunk => if chunk.isEmpty then [] else [chunk]
  | row :: rest, chunk =>
      if chunk_size ≤ (chunk ++ [row]).length then
        (chunk ++ [row]) :: iter_chunksGo chunk_size rest []
      else
        iter_chunksGo chunk_size rest (chunk ++ [row])

/-- `iter_chunks(csvfile, chunk_size)` from `reader.py`, with the row stream
given as a list. -/
def iter_chunks {Row : Type} (csvfile : List Row) (chunk_size : Nat) :
    List (List Row) :=
  iter_chunksGo chunk_size csvfile []

theorem iter_chunksGo_nil {Row : Type} (K : Nat) (chunk : List Row) :
    iter_chunksGo K ([] : List Row) chunk =
      if chunk.isEmpty then [] else [chunk] := rfl

theorem iter_chunksGo_cons {Row : Type} (K : Nat) (row : Row)
    (rest chunk : List Row) :
    iter_chunksGo K (row :: rest) chunk =
      if K ≤ chunk.length + 1 then
        (chunk ++ [row]) :: iter_chunksGo K rest []
      else iter_chunksGo K rest (chunk ++ [row]) := by
  simp [iter_chunksGo]

/-- Concatenating the chunks produced by the `iter_chunks` loop restores the
accumulator followed by the remaining input. -/
theorem iter_chunksGo_join {Row : Type} (K : Nat) (rows chunk : List Row) :
    (iter_chunksGo K rows chunk).join = chunk ++ rows := by
  induction rows generalizing chunk with
  | nil =>
      rw [iter_chunksGo_nil]
      cases chunk <;> simp
  | cons row rest ih =>
      rw [iter_chunksGo_cons]
      by_cases h : K ≤ chunk.length + 1 <;> simp [h, ih]

/-- The `iter_chunks` loop yields nothing only when both the input and the
accumulator are empty. -/
theorem iter_chunksGo_ne_nil {Row : Type} (K : Nat) (rows chunk : List Row)
    (h : rows ≠ [] ∨ chunk ≠ []) : iter_chunksGo K rows chunk ≠ [] := by
  induction rows generalizing chunk with
  | nil =>
      have hc : chunk ≠ [] := by tauto
      obtain ⟨c, cs, rfl⟩ := List.exists_cons_of_ne_nil hc
      rw [iter_chunksGo_nil]
      simp
  | cons row rest ih =>
      rw [iter_chunksGo_cons]
      by_cases hK : K ≤ chunk.length + 1
      · simp [hK]
      · have := ih (chunk ++ [row]) (Or.inr (by simp))
        simp [hK, this]

/-- Every chunk yielded by the `iter_chunks` loop is non-empty. -/
theorem iter_chunksGo_mem_ne_nil {Row : Type} (K : Nat) (rows chunk : List Row) :
    ∀ ch ∈ iter_chunksGo K rows chunk, ch ≠ [] := by
  induction rows generalizing chunk with
  | nil =>
      rw [iter_chunksGo_nil]
      cases chunk <;> simp
  | cons row rest ih =>
      rw [iter_chunksGo_cons]
      by_cases hK : K ≤ chunk.length + 1
      · rw [if_pos hK]
        intro ch hch
        rcases List.mem_cons.mp hch with rfl | hch
        · simp
        · exact ih [] ch hch
      · rw [if_neg hK]
        exact ih (chunk ++ [row])

theorem dropLast_cons_ne {α : Type} (a : α) (l : List α) (h : l ≠ []) :
    (a :: l).dropLast = a :: l.dropLast := by
  cases l with
  | nil => exact absurd rfl h
  | cons b t => rfl

theorem getLast?_cons_ne {α : Type} (a : α) (l : List α) (h : l ≠ []) :
    (a :: l).getLast? = l.getLast? := by
  cases l with
  | nil => exact absurd rfl h
  | cons b t => exact List.getLast?_cons_cons

/-- As long as the accumulator holds fewer than `K` rows, every chunk the
`iter_chunks` loop yields, except possibly the final one, has exactly `K`
rows. -/
theorem iter_chunksGo_dropLast_length {Row : Type} (K : Nat)
    (rows chunk : List Row) (hc : chunk.length < K) :
    ∀ ch ∈ (iter_chunksGo K rows chunk).dropLast, ch.length = K := by
  induction rows generalizing chunk with
  | nil =>
      rw [iter_chunksGo_nil]
      cases chunk <;> simp
  | cons row rest ih =>
      rw [iter_chunksGo_cons]
      by_cases hK : K ≤ chunk.length + 1
      · rw [if_pos hK]
        have hlen : (chunk ++ [row]).length = K := by
          simp only [List.length_append, List.length_cons, List.length_nil]
          omega
        by_cases hnil : iter_chunksGo K rest ([] : List Row) = []
        · simp [hnil]
        · intro ch hch
          rw [dropLast_cons_ne _ _ hnil] at hch
          rcases List.mem_cons.mp hch with rfl | hch
          · exact hlen
          · exact ih ([] : List Row)
              (by simp only [List.length_nil]; omega) ch hch
      · rw [if_neg hK]
        have hlt : (chunk ++ [row]).length < K := by
          simp only [List.length_append, List.length_cons, List.length_nil]
          omega
        exact ih (chunk ++ [row]) hlt

/-- The final chunk the `iter_chunks` loop yields has `N mod K` rows when
that remainder is non-zero and `K` rows otherwise, where `N` counts the
accumulator together with the remaining input. -/
theorem iter_chunksGo_getLast {Row : Type} (K : Nat) (rows chunk : List Row)
    (hc : chunk.length < K) (h : rows ≠ [] ∨ chunk ≠ []) :
    ∃ last, (iter_chunksGo K rows chunk).getLast? = some last ∧
      last.length =
        if (chunk.length + rows.length) % K = 0 then K
        else (chunk.length + rows.length) % K := by
  induction rows generalizing chunk with
  | nil =>
      have hcne : chunk ≠ [] := by tauto
      have h0 : 0 < chunk.length := List.length_pos.mpr hcne
      have hmod : (chunk.length + ([] : List Row).length) % K = chunk.length := by
        simp only [List.length_nil, Nat.add_zero]
        exact Nat.mod_eq_of_lt hc
      refine ⟨chunk, ?_, ?_⟩
      · obtain ⟨c, cs, rfl⟩ := List.exists_cons_of_ne_nil hcne
        rw [iter_chunksGo_nil]
        simp
      · rw [if_neg (by rw [hmod]; omega), hmod]
  | cons row rest ih =>
      rw [iter_chunksGo_cons]
      by_cases hK : K ≤ chunk.length + 1
      · rw [if_pos hK]
        have hlen : chunk.length + 1 = K := by omega
        cases rest with
        | nil =>
            refine ⟨chunk ++ [row], ?_, ?_⟩
            · rw [iter_chunksGo_nil]
              simp
            · have h1 : (chunk.length + ([row] : List Row).length) % K = 0 := by
                simp only [List.length_cons, List.length_nil, Nat.zero_add]
                rw [hlen]
                exact Nat.mod_self K
              rw [if_pos h1]
              simp only [List.length_append, List.length_cons, List.length_nil]
              omega
        | cons row2 rest2 =>
            have hne : iter_chunksGo K (row2 :: rest2) ([] : List Row) ≠ [] :=
              iter_chunksGo_ne_nil K _ _ (Or.inl (by simp))
            obtain ⟨last, hlast, hlen2⟩ :=
              ih ([] : List Row)
                (by simp only [List.length_nil]; omega) (Or.inl (by simp))
            refine ⟨last, ?_, ?_⟩
            · rw [getLast?_cons_ne _ _ hne]
              exact hlast
            · have hmod : (chunk.length + (row :: row2 :: rest2).length) % K =
                  (([] : List Row).length + (row2 :: rest2).length) % K := by
                simp only [List.length_cons, List.length_nil, Nat.zero_add]
                have h2 : chunk.length + (rest2.length + 1 + 1) =
                    K + (rest2.length + 1) := by omega
                rw [h2, Nat.add_mod_left]
              rw [hmod]
              exact hlen2
      · rw [if_neg hK]
        have hlt : (chunk ++ [row]).length < K := by
          simp only [List.length_append, List.length_cons, List.length_nil]
          omega
        obtain ⟨last, hlast, hlen2⟩ :=
          ih (chunk ++ [row]) hlt (Or.inr (by simp))
        refine ⟨last, hlast, ?_⟩
        have hmod : ((chunk ++ [row]).length + rest.length) =
            (chunk.length + (row :: rest).length) := by
          simp only [List.length_append, List.length_cons, List.length_nil]
          omega
        rw [hmod] at hlen2
        exact hlen2

/-- The yield loop of `BatchGenerator.__iter__`: for each chunk produced by
`iter_chunks`, a `Batch` is yielded unless `(rows_read, n_rows)` is in
`already_processed_batches`; `rows_read` advances by the chunk length either
way. -/
def genLoop {Row : Type} (fieldnames : List String) (rty_cnt : Nat)
    (already : List (Nat × Nat)) : List (List Row) → Nat → List (Batch Row)
  | [], _ => []
  | chunk :: rest, rows_read =>
      if (rows_read, chunk.length) ∈ already then
        genLoop fieldnames rty_cnt already rest (rows_read + chunk.length)
      else
        { id := rows_read, rows := chunk.length, fieldnames := fieldnames,
          data := chunk, rty_cnt := rty_cnt } ::
          genLoop fieldnames rty_cnt already rest (rows_read + chunk.length)

/-- The batches yielded by one run of `BatchGenerator.__iter__`, with the
reader's data-row stream given as `rows` and its field names as
`fieldnames`. -/
def batchGenBatches {Row : Type} (fieldnames : List String)
    (chunksize rty_cnt : Nat) (already : List (Nat × Nat)) (rows : List Row) :
    List (Batch Row) :=
  genLoop fieldnames rty_cnt already (iter_chunks rows chunksize) 0

/-- The error `BatchGenerator.__iter__` can raise after its loop: the
`ValueError` carrying the message that the input file is empty, raised when
`has_content` stayed false. -/
inductive BatchGenError : Type
  | emptyInput
deriving DecidableEq

/-- One full run of `BatchGenerator.__iter__`: the batches yielded, paired
with the error raised after the loop when no chunk was ever produced. -/
def batchGenRun {Row : Type} (fieldnames : List String)
    (chunksize rty_cnt : Nat) (already : List (Nat × Nat)) (rows : List Row) :
    List (Batch Row) × Option BatchGenError :=
  (batchGenBatches fieldnames chunksize rty_cnt already rows,
   if (iter_chunks rows chunksize).isEmpty then some .emptyInput else none)

/-- The `(rows_read, n_rows)` pairs the generator loop computes for the
chunks of a run, starting from offset `off`. -/
def chunkPairs {Row : Type} : List (List Row) → Nat → List (Nat × Nat)
  | [], _ => []
  | c :: cs, off => (off, c.length) :: chunkPairs cs (off + c.length)

/-- With an empty checkpoint set the generator loop yields one batch per
chunk, carrying the chunk as its payload. -/
theorem genLoop_map_data {Row : Type} (fieldnames : List String)
    (rty_cnt : Nat) (cs : List (List Row)) (off : Nat) :
    (genLoop fieldnames rty_cnt [] cs off).map Batch.data = cs := by
  induction cs generalizing off with
  | nil => rfl
  | cons c cs ih => simp [genLoop, ih]

/-- Every batch the generator loop yields reports the length of its payload
as its row count. -/
theorem genLoop_rows_eq_length {Row : Type} (fieldnames : List String)
    (rty_cnt : Nat) (already : List (Nat × Nat)) (cs : List (List Row))
    (off : Nat) :
    ∀ b ∈ genLoop fieldnames rty_cnt already cs off, b.rows = b.data.length := by
  induction cs generalizing off with
  | nil => simp [genLoop]
  | cons c cs ih =>
      by_cases hm : (off, c.length) ∈ already
      · rw [genLoop, if_pos hm]
        exact ih (off + c.length)
      · rw [genLoop, if_neg hm]
        intro b hb
        rcases List.mem_cons.mp hb with rfl | hb
        · rfl
        · exact ih (off + c.length) b hb

/-- The generator loop run against a checkpoint set yields exactly the
batches of the checkpoint-free run whose `(offset, rowCount)` pair is not in
the set. -/
theorem genLoop_filter {Row : Type} (fieldnames : List String)
    (rty_cnt : Nat) (already : List (Nat × Nat)) (cs : List (List Row))
    (off : Nat) :
    genLoop fieldnames rty_cnt already cs off =
      (genLoop fieldnames rty_cnt [] cs off).filter
        (fun b => decide ((b.id, b.rows) ∉ already)) := by
  induction cs generalizing off with
  | nil => rfl
  | cons c cs ih =>
      by_cases hm : (off, c.length) ∈ already
      · rw [genLoop, if_pos hm, genLoop, if_neg (List.not_mem_nil _),
            List.filter_cons]
        simp only [hm, not_true_eq_false, decide_False, Bool.false_eq_true,
          if_false]
        exact ih (off + c.length)
      · rw [genLoop, if_neg hm, genLoop, if_neg (List.not_mem_nil _),
            List.filter_cons]
        simp [hm, ih (off + c.length)]

/-- Lower bound on the offsets of the batches the checkpoint-free generator
loop yields. -/
theorem genLoop_id_lb {Row : Type} (fieldnames : List String)
    (rty_cnt : Nat) (cs : List (List Row)) (off : Nat) :
    ∀ b ∈ genLoop fieldnames rty_cnt [] cs off, off ≤ b.id := by
  induction cs generalizing off with
  | nil => simp [genLoop]
  | cons c cs ih =>
      rw [genLoop, if_neg (List.not_mem_nil _)]
      intro b hb
      rcases List.mem_cons.mp hb with rfl | hb
      · exact Nat.le_refl off
      · exact Nat.le_trans (Nat.le_add_right off c.length) (ih _ b hb)

/-- When every chunk is non-empty, the checkpoint-free generator loop yields
batches with strictly increasing offsets. -/
theorem genLoop_chain {Row : Type} (fieldnames : List String)
    (rty_cnt : Nat) (cs : List (List Row)) (off : Nat)
    (hne : ∀ c ∈ cs, c ≠ []) :
    List.Chain' (fun a b => a.id < b.id)
      (genLoop fieldnames rty_cnt [] cs off) := by
  induction cs generalizing off with
  | nil => simp [genLoop]
  | cons c cs ih =>
      rw [genLoop, if_neg (List.not_mem_nil _)]
      rw [List.chain'_cons']
      constructor
      · intro b hb
        have hb2 : b ∈ genLoop fieldnames rty_cnt [] cs (off + c.length) :=
          List.mem_of_mem_head? hb
        have h1 : off + c.length ≤ b.id := genLoop_id_lb _ _ _ _ b hb2
        have h2 : 0 < c.length :=
          List.length_pos.mpr (hne c (List.mem_cons_self c cs))
        simp only []
        omega
      · exact ih (off + c.length) fun d hd => hne d (List.mem_cons_of_mem c hd)

/-- When every `(offset, rowCount)` pair is in the checkpoint set, the
generator loop yields nothing. -/
theorem genLoop_all_skipped {Row : Type} (fieldnames : List String)
    (rty_cnt : Nat) (already : List (Nat × Nat)) (cs : List (List Row))
    (off : Nat) (h : ∀ pr ∈ chunkPairs cs off, pr ∈ already) :
    genLoop fieldnames rty_cnt already cs off = [] := by
  induction cs generalizing off with
  | nil => rfl
  | cons c cs ih =>
      have hm : (off, c.length) ∈ already :=
        h _ (by rw [chunkPairs]; exact List.mem_cons_self _ _)
      rw [genLoop, if_pos hm]
      exact ih (off + c.length) fun pr hpr =>
        h pr (by rw [chunkPairs]; exact List.mem_cons_of_mem _ hpr)

/-- C3: for every dataset with at least one data row and every positive batch
size `K`, with an empty already-processed set, the batches yielded by
`BatchGenerator` concatenate (in yield order) back to the original data-row
sequence, every batch except possibly the last reports row count `K`, the
last batch reports `N mod K` rows (or `K` when `N mod K = 0`), and offsets
strictly increase along the yield order. -/
theorem batchGenerator_round_trip {Row : Type} (fieldnames : List String)
    (K rty_cnt : Nat) (rows : List Row) (hrows : rows ≠ []) (hK : 0 < K) :
    ((batchGenBatches fieldnames K rty_cnt [] rows).map Batch.data).join
        = rows ∧
    (∀ b ∈ (batchGenBatches fieldnames K rty_cnt [] rows).dropLast,
        b.rows = K) ∧
    (∃ last,
        (batchGenBatches fieldnames K rty_cnt [] rows).getLast? = some last ∧
        last.rows = if rows.length % K = 0 then K else rows.length % K) ∧
    List.Chain' (fun a b => a.id < b.id)
        (batchGenBatches fieldnames K rty_cnt [] rows) := by
  have hmap : (batchGenBatches fieldnames K rty_cnt [] rows).map Batch.data
      = iter_chunks rows K := genLoop_map_data fieldnames rty_cnt _ 0
  have hczlt : ([] : List Row).length < K := by
    simp only [List.length_nil]
    omega
  refine ⟨?_, ?_, ?_, ?_⟩
  · rw [hmap]
    simpa using iter_chunksGo_join K rows []
  · intro b hb
    have hbmem : b ∈ batchGenBatches fieldnames K rty_cnt [] rows :=
      (List.dropLast_prefix _).subset hb
    have hdata : b.data ∈ (iter_chunks rows K).dropLast := by
      rw [← hmap, ← List.map_dropLast]
      exact List.mem_map_of_mem Batch.data hb
    have hlen : b.data.length = K :=
      iter_chunksGo_dropLast_length K rows [] hczlt _ hdata
    rw [genLoop_rows_eq_length fieldnames rty_cnt [] _ 0 b hbmem, hlen]
  · obtain ⟨lc, hlc, hlclen⟩ :=
      iter_chunksGo_getLast K rows [] hczlt (Or.inl hrows)
    have hgl : ((batchGenBatches fieldnames K rty_cnt [] rows).map
        Batch.data).getLast? = some lc := by
      rw [hmap]
      exact hlc
    rw [List.getLast?_map] at hgl
    obtain ⟨b, hb, hbd⟩ := Option.map_eq_some'.mp hgl
    refine ⟨b, hb, ?_⟩
    have hbmem : b ∈ batchGenBatches fieldnames K rty_cnt [] rows :=
      List.mem_of_mem_getLast? hb
    rw [genLoop_rows_eq_length fieldnames rty_cnt [] _ 0 b hbmem, hbd]
    simpa using hlclen
  · exact genLoop_chain fieldnames rty_cnt _ 0
      (iter_chunksGo_mem_ne_nil K rows [])

/-- C3 witness: five data rows, batch size two, no checkpoints. -/
theorem batchGenerator_round_trip_witness :
    ((batchGenBatches ["a", "b", "c"] 2 3 [] [10, 20, 30, 40, 50]).map
        Batch.data).join = [10, 20, 30, 40, 50] ∧
    (∀ b ∈ (batchGenBatches ["a", "b", "c"] 2 3 []
        [10, 20, 30, 40, 50]).dropLast, b.rows = 2) ∧
    (∃ last, (batchGenBatches ["a", "b", "c"] 2 3 []
        [10, 20, 30, 40, 50]).getLast? = some last ∧
        last.rows = if ([10, 20, 30, 40, 50] : List Nat).length % 2 = 0
          then 2 else ([10, 20, 30, 40, 50] : List Nat).length % 2) ∧
    List.Chain' (fun a b => a.id < b.id)
        (batchGenBatches ["a", "b", "c"] 2 3 [] [10, 20, 30, 40, 50]) :=
  batchGenerator_round_trip ["a", "b", "c"] 2 3 [10, 20, 30, 40, 50]
    (by simp) (by omega)

/-- C4: for every dataset and checkpoint set `P`, the generator emits no
batch whose `(offset, rowCount)` pair is in `P`, and it emits exactly the
batches of the checkpoint-free run whose pair is not in `P`, unchanged and
with the same offsets (the offset counter advances over skipped groups). -/
theorem batchGenerator_checkpoint_skip {Row : Type} (fieldnames : List String)
    (K rty_cnt : Nat) (already : List (Nat × Nat)) (rows : List Row) :
    batchGenBatches fieldnames K rty_cnt already rows =
      (batchGenBatches fieldnames K rty_cnt [] rows).filter
        (fun b => decide ((b.id, b.rows) ∉ already)) ∧
    ∀ b ∈ batchGenBatches fieldnames K rty_cnt already rows,
      (b.id, b.rows) ∉ already := by
  refine ⟨genLoop_filter fieldnames rty_cnt already _ 0, ?_⟩
  intro b hb
  simp only [batchGenBatches] at hb
  rw [genLoop_filter fieldnames rty_cnt already _ 0] at hb
  simpa using List.of_mem_filter hb

/-- C6: a dataset producing zero row groups makes the generator raise the
empty-input error and yield no batch, while a non-empty dataset whose chunk
pairs are all in the already-processed set yields zero batches and raises no
error. -/
theorem batchGenerator_empty_vs_all_processed {Row : Type}
    (fieldnames : List String) (K rty_cnt : Nat) (already : List (Nat × Nat))
    (rows : List Row) (hrows : rows ≠ [])
    (hall : ∀ pr ∈ chunkPairs (iter_chunks rows K) 0, pr ∈ already) :
    batchGenRun fieldnames K rty_cnt already ([] : List Row)
        = ([], some BatchGenError.emptyInput) ∧
    batchGenRun fieldnames K rty_cnt already rows = ([], none) := by
  constructor
  · rfl
  · have h1 : batchGenBatches fieldnames K rty_cnt already rows = [] :=
      genLoop_all_skipped fieldnames rty_cnt already _ 0 hall
    have h2 : iter_chunks rows K ≠ [] :=
      iter_chunksGo_ne_nil K rows [] (Or.inl hrows)
    have h3 : (iter_chunks rows K).isEmpty = false := by
      obtain ⟨c, cs, hcc⟩ := List.exists_cons_of_ne_nil h2
      rw [hcc]
      rfl
    rw [batchGenRun, h1, h3]
    rfl

/-- C6 witness: a one-row dataset with its single `(0, 1)` batch already
processed, against the empty dataset. -/
theorem batchGenerator_empty_vs_all_processed_witness :
    batchGenRun [] 1 0 [(0, 1)] ([] : List Nat)
        = ([], some BatchGenError.emptyInput) ∧
    batchGenRun [] 1 0 [(0, 1)] [7] = ([], none) :=
  batchGenerator_empty_vs_all_processed [] 1 0 [(0, 1)] [7]
    (by simp) (by decide)

/-- The status bytes `Shovel._shove` writes to the shared
`shovel_status` cell: `b"P"`, `b"A"`, `b"D"`, `b"C"`, `b"E"` (the owner sets
the initial `b"-"`; `decode_reader_state` names the values). -/
inductive ShovelStatus : Type
  | initial
  | posting
  | aborted
  | done
  | csvErr
  | genericErr
deriving DecidableEq

/-- An error the batch generator can raise while `Shovel._shove` iterates
it: a `csv.Error` (caught by the first handler) or any other exception
(caught by the second). -/
inductive GenErr : Type
  | csvError (msg : String)
  | otherError (msg : String)
deriving DecidableEq

/-- The status byte the matching handler writes for a generator error. -/
def GenErr.statusByte : GenErr → ShovelStatus
  | .csvError _ => .csvErr
  | .otherError _ => .genericErr

/-- The tags of `ProgressQueueMsg` used by `Shovel._shove`. -/
inductive ProgressMsgKind : Type
  | shovelDone
  | shovelCsvError
  | shovelError
deriving DecidableEq

/-- A message placed on the progress queue: the tag plus the payload fields
`Shovel._shove` fills in (`batch` and `error` are absent from the
`SHOVEL_DONE` payload; the `rusage` snapshot from `get_rusage` is opaque to
this model and carried as a unit value). -/
structure ProgressEvent (Row : Type) where
  kind : ProgressMsgKind
  batch : Option (Batch Row)
  error : Option String
  produced : Nat
  rusage : Unit
deriving DecidableEq

/-- How a run of `Shovel._shove` ends: a normal return, re-raising the
generator's `csv.Error` or other exception after reporting it, or dying on
the `NameError` the handler hits when it reads the loop variable `batch`
before the loop ever bound it. -/
inductive ShoveOutcome : Type
  | normal
  | raisedCsv (msg : String)
  | raisedOther (msg : String)
  | raisedNameError
deriving DecidableEq

/-- The observable effects of one run of `Shovel._shove`: the sequence of
status bytes written, the batches put on the data queue, the messages put on
the progress queue, and how the process run ends. -/
structure ShoveResult (Row : Type) where
  writes : List ShovelStatus
  queued : List (Batch Row)
  events : List (ProgressEvent Row)
  outcome : ShoveOutcome
deriving DecidableEq

/-- The `for batch in batch_generator` loop of `Shovel._shove`: each batch
sets the status to `b"P"`, is put on the queue and counted, after which the
abort flag is polled (`abort n` is the value observed after the `n`-th
push); if it is set the status becomes `b"A"` and the loop breaks.  Returns
the produced count, the queue contents, the status writes, and whether the
loop broke on abort. -/
def shoveLoop {Row : Type} (abort : Nat → Bool) :
    List (Batch Row) → Nat → List (Batch Row) → List ShovelStatus →
    Nat × List (Batch Row) × List ShovelStatus × Bool
  | [], n, q, w => (n, q, w, false)
  | b :: rest, n, q, w =>
      if abort (n + 1) then
        (n + 1, q ++ [b], w ++ [ShovelStatus.posting, ShovelStatus.aborted],
          true)
      else
        shoveLoop abort rest (n + 1) (q ++ [b]) (w ++ [ShovelStatus.posting])

/-- One run of `Shovel._shove`, with the batch generator's behaviour given
as the list of batches it yields followed by the error (if any) it raises
when asked for the next batch after those.  Mirrors the source's control
flow: after the loop — whether it was exhausted or broke on abort — the
status is set to `b"D"` and a `SHOVEL_DONE` message is emitted; a generator
error is only observed when the loop was not broken, and its handler reads
the loop variable `batch`, which raises `NameError` (emitting nothing) when
no batch was ever yielded. -/
def shoveRun {Row : Type} (yields : List (Batch Row)) (err : Option GenErr)
    (abort : Nat → Bool) : ShoveResult Row :=
  match shoveLoop abort yields 0 [] [] with
  | (n, q, w, aborted) =>
    if aborted then
      { writes := w ++ [ShovelStatus.done], queued := q,
        events := [{ kind := .shovelDone, batch := none, error := none,
                     produced := n, rusage := () }],
        outcome := .normal }
    else
      match err with
      | none =>
          { writes := w ++ [ShovelStatus.done], queued := q,
            events := [{ kind := .shovelDone, batch := none, error := none,
                         produced := n, rusage := () }],
            outcome := .normal }
      | some (.csvError msg) =>
          match yields.getLast? with
          | some batch =>
              { writes := w ++ [ShovelStatus.csvErr], queued := q,
                events := [{ kind := .shovelCsvError,
                             batch := some batch.replaceData,
                             error := some msg, produced := n, rusage := () }],
                outcome := .raisedCsv msg }
          | none =>
              { writes := w ++ [ShovelStatus.csvErr], queued := q,
                events := [], outcome := .raisedNameError }
      | some (.otherError msg) =>
          match yields.getLast? with
          | some batch =>
              { writes := w ++ [ShovelStatus.genericErr], queued := q,
                events := [{ kind := .shovelError,
                             batch := some batch.replaceData,
                             error := some msg, produced := n, rusage := () }],
                outcome := .raisedOther msg }
          | none =>
              { writes := w ++ [ShovelStatus.genericErr], queued := q,
                events := [], outcome := .raisedNameError }

/-- When the abort flag is never observed set, the producer loop pushes
every yielded batch, writing `b"P"` once per push and never breaking. -/
theorem shoveLoop_no_abort {Row : Type} (abort : Nat → Bool)
    (ha : ∀ k, abort k = false) (yields : List (Batch Row)) :
    ∀ n q w, shoveLoop abort yields n q w =
      (n + yields.length, q ++ yields,
       w ++ List.replicate yields.length ShovelStatus.posting, false) := by
  induction yields with
  | nil => intro n q w; simp [shoveLoop]
  | cons b rest ih =>
      intro n q w
      rw [shoveLoop, ha (n + 1), if_neg (by simp)]
      rw [ih (n + 1) (q ++ [b]) (w ++ [ShovelStatus.posting])]
      simp [List.replicate_succ]
      omega

/-- An abort flag that the producer observes as set from the second queue
push onward. -/
def abortAfterTwoPushes (n : Nat) : Bool := decide (2 ≤ n)

/-- A five-batch generator output for exercising the abort path. -/
def fiveBatches : List (Batch Nat) :=
  [{ id := 0, rows := 1, fieldnames := ["x"], data := [10], rty_cnt := 3 },
   { id := 1, rows := 1, fieldnames := ["x"], data := [11], rty_cnt := 3 },
   { id := 2, rows := 1, fieldnames := ["x"], data := [12], rty_cnt := 3 },
   { id := 3, rows := 1, fieldnames := ["x"], data := [13], rty_cnt := 3 },
   { id := 4, rows := 1, fieldnames := ["x"], data := [14], rty_cnt := 3 }]

/-- C1: when the abort flag is observed set after 2 of 5 batches were
pushed, exactly those 2 batches are on the data queue, but the `b"A"`
status write is immediately overwritten by `b"D"` (the post-loop code runs
after the `break`), and the single terminal progress message is
`SHOVEL_DONE` — contradicting the claimed terminal `Aborted` status and
non-`SHOVEL_DONE` terminal event. -/
theorem shovel_abort_overwritten_by_done :
    fiveBatches.length = 5 ∧
    shoveRun fiveBatches none abortAfterTwoPushes =
      { writes := [ShovelStatus.posting, ShovelStatus.posting,
                   ShovelStatus.aborted, ShovelStatus.done],
        queued := fiveBatches.take 2,
        events := [{ kind := ProgressMsgKind.shovelDone, batch := none,
                     error := none, produced := 2, rusage := () }],
        outcome := ShoveOutcome.normal } := by
  exact ⟨rfl, rfl⟩

/-- C2 (amended): when the generator raises a `csv.Error` after yielding at
least one batch, in a run with no abort request, the producer sets the
status byte to `b"C"` and emits exactly one `SHOVEL_CSV_ERROR` message
carrying the last yielded batch with its rows payload cleared, the error
description, the produced count and the resource-usage snapshot, then
re-raises the `csv.Error`. -/
theorem shovel_csv_error_report {Row : Type} (yields : List (Batch Row))
    (last : Batch Row) (msg : String) (abort : Nat → Bool)
    (hlast : yields.getLast? = some last) (ha : ∀ k, abort k = false) :
    shoveRun yields (some (GenErr.csvError msg)) abort =
      { writes := List.replicate yields.length ShovelStatus.posting ++
                    [ShovelStatus.csvErr],
        queued := yields,
        events := [{ kind := ProgressMsgKind.shovelCsvError,
                     batch := some last.replaceData, error := some msg,
                     produced := yields.length, rusage := () }],
        outcome := ShoveOutcome.raisedCsv msg } ∧
    last.replaceData.data = [] := by
  have hloop := shoveLoop_no_abort abort ha yields 0 [] []
  simp only [Nat.zero_add, List.nil_append] at hloop
  constructor
  · rw [shoveRun, hloop]
    simp only [Bool.false_eq_true, if_false, hlast]
  · rfl

/-- C2 witness data: the two batches of a concrete failing run. -/
def witnessBatchA : Batch Nat :=
  { id := 0, rows := 2, fieldnames := ["a"], data := [1, 2], rty_cnt := 1 }

/-- C2 witness data: the last batch yielded before the `csv.Error`. -/
def witnessBatchB : Batch Nat :=
  { id := 2, rows := 2, fieldnames := ["a"], data := [3, 4], rty_cnt := 1 }

/-- C2 witness: a concrete two-batch run that dies on a `csv.Error`. -/
theorem shovel_csv_error_report_witness :
    shoveRun [witnessBatchA, witnessBatchB]
        (some (GenErr.csvError "bad line")) (fun _ => false) =
      { writes := List.replicate 2 ShovelStatus.posting ++
                    [ShovelStatus.csvErr],
        queued := [witnessBatchA, witnessBatchB],
        events := [{ kind := ProgressMsgKind.shovelCsvError,
                     batch := some witnessBatchB.replaceData,
                     error := some "bad line", produced := 2, rusage := () }],
        outcome := ShoveOutcome.raisedCsv "bad line" } ∧
    witnessBatchB.replaceData.data = [] :=
  shovel_csv_error_report [witnessBatchA, witnessBatchB] witnessBatchB
    "bad line" (fun _ => false) rfl (fun _ => rfl)

/-- C2 counterexample: when the `csv.Error` arrives before any batch was
yielded, the handler dies reading the unbound loop variable `batch`, so no
`SHOVEL_CSV_ERROR` message is ever placed on the progress queue, refuting
the claim for such runs. -/
theorem shovel_csv_error_before_first_batch :
    shoveRun ([] : List (Batch Nat))
        (some (GenErr.csvError "bad first line")) (fun _ => false) =
      { writes := [ShovelStatus.csvErr], queued := [], events := [],
        outcome := ShoveOutcome.raisedNameError } := rfl

/-- C9: whatever error the generator raises before the first batch is
yielded, the handler in `Shovel._shove` has already written the matching
status byte (`b"C"` or `b"E"`) but then reads the never-bound loop variable
`batch`, so it raises `NameError` and no `SHOVEL_CSV_ERROR` or
`SHOVEL_ERROR` message reaches the progress queue. -/
theorem shovel_prebatch_error_name_error {Row : Type} (e : GenErr)
    (abort : Nat → Bool) :
    shoveRun ([] : List (Batch Row)) (some e) abort =
      { writes := [e.statusByte], queued := [], events := [],
        outcome := ShoveOutcome.raisedNameError } := by
  cases e <;> rfl

/-- `AUTO_SAMPLE_SIZE = int(0.5 * 1024 ** 2)` from `reader.py`. -/
def AUTO_SAMPLE_SIZE : Nat := 524288

/-- `AUTO_SMALL_SAMPLES = 500` from `reader.py`. -/
def AUTO_SMALL_SAMPLES : Nat := 500

/-- `AUTO_GOAL_SIZE = int(2.5 * 1024 ** 2)` from `reader.py`. -/
def AUTO_GOAL_SIZE : Nat := 2621440

/-- The outcome of the CSV-parsing loop inside `auto_sampler`, abstracted:
either every record of the truncated sample parses (`ok records`), or a
`csv.Error` is raised after `records` records with the buffer's seek
position at `pos` (`failAt records pos`).  Reading is line-by-line, so `pos`
is always one of the recorded line-end positions. -/
inductive ParseOutcome : Type
  | ok (records : Nat)
  | failAt (records : Nat) (pos : Nat)
deriving DecidableEq

/-- The `csv_lines` count reaching the average-row-size computation. -/
def ParseOutcome.records : ParseOutcome → Nat
  | .ok r => r
  | .failAt r _ => r

/-- `line_pos[-3:]`: the last three recorded line-end positions. -/
def lastThree (line_pos : List Nat) : List Nat :=
  line_pos.drop (line_pos.length - 3)

/-- The test `buf.tell() in line_pos[-3:]` of `auto_sampler`, which decides
whether a `csv.Error` is swallowed (a truncation artifact) or fatal; a fully
successful parse has nothing to swallow. -/
def parseSwallowed (line_pos : List Nat) : ParseOutcome → Bool
  | .ok _ => true
  | .failAt _ pos => decide (pos ∈ lastThree line_pos)

/-- How a run of `auto_sampler` ends: a returned estimate, the fatal
termination of the non-swallowed `csv.Error` branch, the uncaught
`IndexError` from `line_pos[-2]` when fewer than two line positions were
recorded, or the uncaught `ZeroDivisionError` of the two `int(x / y)`
steps. -/
inductive SamplerResult : Type
  | estimate (n : Nat)
  | fatalParse
  | indexError
  | zeroDivError
deriving DecidableEq

/-- The arithmetic tail of `auto_sampler`:
`avg_line = int(size_bytes / csv_lines)`;
`lines_per_sample = int(AUTO_GOAL_SIZE / avg_line) + 1`; either division
raises `ZeroDivisionError` on a zero divisor. -/
def autoSamplerEstimate (size_bytes csv_lines : Nat) : SamplerResult :=
  if csv_lines = 0 then .zeroDivError
  else
    if size_bytes / csv_lines = 0 then .zeroDivError
    else .estimate (AUTO_GOAL_SIZE / (size_bytes / csv_lines) + 1)

/-- `auto_sampler(dataset, encoding, ui)` from `reader.py`, over an abstract
sample: `size_bytes` is the computed byte size of the decoded sample,
`line_pos` the recorded end positions of its physical lines, and `parse` the
outcome of the CSV-parsing loop over the truncated sample.  The control flow
follows the source: the small-dataset check first
(`size_bytes < sample_size * 0.75`), then the truncation at `line_pos[-2]`
(an `IndexError` when fewer than two positions exist), then the parsing
loop whose `csv.Error` is swallowed exactly when the failure position lies
in `line_pos[-3:]`, and finally the average-row arithmetic. -/
def auto_sampler (size_bytes : Nat) (line_pos : List Nat)
    (parse : ParseOutcome) : SamplerResult :=
  if size_bytes < AUTO_SAMPLE_SIZE * 3 / 4 then .estimate AUTO_SMALL_SAMPLES
  else if line_pos.length < 2 then .indexError
  else if parseSwallowed line_pos parse then
    autoSamplerEstimate size_bytes parse.records
  else .fatalParse

/-- C7 (amended): a `csv.Error` whose seek position lies within the last
recorded line boundaries (`line_pos[-3:]`, i.e. the last two boundaries of
the truncated sample plus the unreachable pre-truncation end) is swallowed
and — provided at least one record was parsed — an estimate is still
returned, while a failure at any earlier position is fatal. -/
theorem auto_sampler_truncation_tolerance (size_bytes records pos : Nat)
    (line_pos : List Nat) (h1 : 393216 ≤ size_bytes)
    (h2 : 2 ≤ line_pos.length) (h3 : 0 < records)
    (h4 : records ≤ size_bytes) :
    (pos ∈ lastThree line_pos →
      auto_sampler size_bytes line_pos (ParseOutcome.failAt records pos) =
        SamplerResult.estimate
          (AUTO_GOAL_SIZE / (size_bytes / records) + 1)) ∧
    (pos ∉ lastThree line_pos →
      auto_sampler size_bytes line_pos (ParseOutcome.failAt records pos) =
        SamplerResult.fatalParse) := by
  have hbig : ¬size_bytes < AUTO_SAMPLE_SIZE * 3 / 4 := by
    rw [AUTO_SAMPLE_SIZE]
    omega
  have hlp : ¬line_pos.length < 2 := by omega
  have havg : ¬size_bytes / records = 0 := by
    have := Nat.div_pos h4 h3
    omega
  constructor
  · intro hmem
    rw [auto_sampler, if_neg hbig, if_neg hlp,
        if_pos (by simp [parseSwallowed, hmem])]
    simp only [ParseOutcome.records]
    rw [autoSamplerEstimate, if_neg (by omega), if_neg havg]
  · intro hmem
    rw [auto_sampler, if_neg hbig, if_neg hlp,
        if_neg (by simp [parseSwallowed, hmem])]

/-- C7 witness: a swallowed failure at the second line boundary returns an
estimate; an identical failure at an unrecorded earlier position is
fatal. -/
theorem auto_sampler_truncation_tolerance_witness :
    auto_sampler 524288 [10, 20] (ParseOutcome.failAt 2 10) =
      SamplerResult.estimate (AUTO_GOAL_SIZE / (524288 / 2) + 1) ∧
    auto_sampler 524288 [10, 20] (ParseOutcome.failAt 2 5) =
      SamplerResult.fatalParse :=
  ⟨(auto_sampler_truncation_tolerance 524288 2 10 [10, 20] (by omega)
      (by simp) (by omega) (by omega)).1 (by decide),
   (auto_sampler_truncation_tolerance 524288 2 5 [10, 20] (by omega)
      (by simp) (by omega) (by omega)).2 (by decide)⟩

/-- C7 counterexample: a failure at the last line boundaries with zero
records parsed is swallowed, but the run then dies in
`size_bytes / csv_lines` instead of returning an estimate, refuting the
claim that a swallowed failure always still yields an estimate. -/
theorem auto_sampler_swallowed_but_no_estimate :
    auto_sampler 393216 [100, 200] (ParseOutcome.failAt 0 100) =
      SamplerResult.zeroDivError := by decide

/-- C8: `auto_sampler` returns the fixed small-batch default 500 whenever
the decoded sample's computed byte size is under 75% of the 0.5 MiB sample
target, and otherwise (on a successfully parsed sample) returns
`AUTO_GOAL_SIZE / (size_bytes / records) + 1`, the floor-division form of
`floor(targetBatchByteSize / averageRowBytes) + 1`. -/
theorem auto_sampler_size_formula (size_bytes records : Nat)
    (line_pos : List Nat) (h2 : 2 ≤ line_pos.length) (h3 : 0 < records)
    (h4 : records ≤ size_bytes) :
    AUTO_SMALL_SAMPLES = 500 ∧
    (size_bytes < 393216 → ∀ parse,
      auto_sampler size_bytes line_pos parse =
        SamplerResult.estimate AUTO_SMALL_SAMPLES) ∧
    (393216 ≤ size_bytes →
      auto_sampler size_bytes line_pos (ParseOutcome.ok records) =
        SamplerResult.estimate
          (AUTO_GOAL_SIZE / (size_bytes / records) + 1)) := by
  refine ⟨rfl, ?_, ?_⟩
  · intro hsmall parse
    rw [auto_sampler, if_pos (by rw [AUTO_SAMPLE_SIZE]; omega)]
  · intro hbig
    have hbig2 : ¬size_bytes < AUTO_SAMPLE_SIZE * 3 / 4 := by
      rw [AUTO_SAMPLE_SIZE]
      omega
    have havg : ¬size_bytes / records = 0 := by
      have := Nat.div_pos h4 h3
      omega
    rw [auto_sampler, if_neg hbig2, if_neg (by omega),
        if_pos (by simp [parseSwallowed])]
    simp only [ParseOutcome.records]
    rw [autoSamplerEstimate, if_neg (by omega), if_neg havg]

/-- C8 witness: a small sample returns 500; a 512 KiB sample with 4096
parsed records returns `2621440 / 128 + 1 = 20481`. -/
theorem auto_sampler_size_formula_witness :
    auto_sampler 1000 [10, 20] (ParseOutcome.ok 5) =
      SamplerResult.estimate AUTO_SMALL_SAMPLES ∧
    auto_sampler 524288 [10, 20] (ParseOutcome.ok 4096) =
      SamplerResult.estimate (AUTO_GOAL_SIZE / (524288 / 4096) + 1) :=
  ⟨(auto_sampler_size_formula 1000 5 [10, 20] (by simp) (by omega)
      (by omega)).2.1 (by omega) (ParseOutcome.ok 5),
   (auto_sampler_size_formula 524288 4096 [10, 20] (by simp) (by omega)
      (by omega)).2.2 (by omega)⟩

/-- C10: past the small-dataset check, `auto_sampler` is partial — with
fewer than two recorded line positions the truncation at `line_pos[-2]`
raises an uncaught `IndexError`, and whenever the parsing loop that reaches
the arithmetic counted zero records, `size_bytes / csv_lines` raises an
uncaught `ZeroDivisionError`. -/
theorem auto_sampler_partiality (size_bytes : Nat) (line_pos : List Nat)
    (parse : ParseOutcome) (h1 : 393216 ≤ size_bytes) :
    (line_pos.length < 2 →
      auto_sampler size_bytes line_pos parse = SamplerResult.indexError) ∧
    (2 ≤ line_pos.length → parseSwallowed line_pos parse = true →
      parse.records = 0 →
      auto_sampler size_bytes line_pos parse =
        SamplerResult.zeroDivError) := by
  have hbig : ¬size_bytes < AUTO_SAMPLE_SIZE * 3 / 4 := by
    rw [AUTO_SAMPLE_SIZE]
    omega
  constructor
  · intro hshort
    rw [auto_sampler, if_neg hbig, if_pos hshort]
  · intro hlp hsw hrec
    rw [auto_sampler, if_neg hbig, if_neg (by omega), if_pos hsw,
        autoSamplerEstimate, if_pos hrec]

/-- C10 witness: one recorded line position raises `IndexError`; zero parsed
records raise `ZeroDivisionError`. -/
theorem auto_sampler_partiality_witness :
    auto_sampler 524288 [5] (ParseOutcome.ok 3) =
      SamplerResult.indexError ∧
    auto_sampler 524288 [5, 10] (ParseOutcome.ok 0) =
      SamplerResult.zeroDivError :=
  ⟨(auto_sampler_partiality 524288 [5] (ParseOutcome.ok 3) (by omega)).1
      (by simp),
   (auto_sampler_partiality 524288 [5, 10] (ParseOutcome.ok 0)
      (by omega)).2 (by simp) rfl rfl⟩

/-- The registered `dataset_dialect` as the reader model consumes it,
abstracted to its delimiter and quote characters. -/
structure Dialect : Type where
  delimiter : Char
  quotechar : Char
deriving DecidableEq

/-- Model of the Python `csv` module's parsing of one record that occupies a
single physical line: fields are split on the delimiter outside quotes, and
a quote character toggles quoted mode without joining the field text.  The
`csv` module is an external library; this models its behaviour on the
single-line records over which the theorems below quantify. -/
def csvSplitGo (delim quote : Char) :
    List Char → Bool → List Char → List String
  | [], _, cur => [String.mk cur.reverse]
  | c :: rest, inQ, cur =>
      if c = quote then csvSplitGo delim quote rest (!inQ) cur
      else if c = delim ∧ inQ = false then
        String.mk cur.reverse :: csvSplitGo delim quote rest false []
      else csvSplitGo delim quote rest inQ (c :: cur)

/-- Parse one single-line CSV record under a dialect. -/
def csvParseLine (d : Dialect) (s : String) : List String :=
  csvSplitGo d.delimiter d.quotechar s.data false []

/-- `csv.reader` (as built by `CSVReader._create_reader`) over a decoded
file given as the list of its physical lines, each stored without its line
terminator, under the single-line-record assumption. -/
def csvReaderRows (d : Dialect) (file : List String) : List (List String) :=
  file.map (csvParseLine d)

/-- `FastReader.__init__`: `self.header = next(reader)` on a fresh reader,
then `self.fieldnames = [c.strip() for c in self.header]`; `none` models the
`StopIteration` a file with no lines raises.  The multiline self-check
(`_check_for_multiline_input`) always passes on single-line records and is
omitted from this model. -/
def fastReaderFieldnames (d : Dialect) (file : List String) :
    Option (List String) :=
  ((csvReaderRows d file).head?).map (fun header =>
    header.map (fun c => c.trim))

/-- `SlowReader.__init__`: the same inherited header read and strip as
`FastReader.__init__`. -/
def slowReaderFieldnames (d : Dialect) (file : List String) :
    Option (List String) :=
  ((csvReaderRows d file).head?).map (fun header =>
    header.map (fun c => c.trim))

/-- `FastReader.__iter__`: a fresh `Recoder` view of the stream, one
`next(it)` to skip the header line, then the remaining raw decoded lines —
the yielded items are unparsed line strings, not field lists. -/
def fastReaderIter (file : List String) : List String := file.tail

/-- `SlowReader.__iter__`: enumerate the rows of a fresh CSV reader over the
whole file and yield all but the row at index 0 (the header). -/
def slowReaderIter (d : Dialect) (file : List String) : List (List String) :=
  (csvReaderRows d file).tail

/-- The default comma dialect used by the concrete reader runs below. -/
def excelDialect : Dialect := { delimiter := ',', quotechar := '"' }

/-- C5 (amended): on a single-line-record dataset the two readers derive
identical fieldnames (and header construction succeeds on a non-empty
file), and `SlowReader`'s parsed row sequence equals the dialect-parse of
the raw line strings `FastReader` yields — the raw strings themselves, not
parsed records, being what `FastReader` produces. -/
theorem fast_slow_reader_agreement (d : Dialect) (file : List String)
    (h : file ≠ []) :
    fastReaderFieldnames d file = slowReaderFieldnames d file ∧
    (∃ fn, fastReaderFieldnames d file = some fn) ∧
    slowReaderIter d file = (fastReaderIter file).map (csvParseLine d) := by
  obtain ⟨c, cs, rfl⟩ := List.exists_cons_of_ne_nil h
  exact ⟨rfl, ⟨_, rfl⟩, rfl⟩

/-- C5 witness: the concrete dataset with header `a,b` and data row
`1,2`. -/
theorem fast_slow_reader_agreement_witness :
    fastReaderFieldnames excelDialect ["a,b", "1,2"] =
      slowReaderFieldnames excelDialect ["a,b", "1,2"] ∧
    (∃ fn, fastReaderFieldnames excelDialect ["a,b", "1,2"] = some fn) ∧
    slowReaderIter excelDialect ["a,b", "1,2"] =
      (fastReaderIter ["a,b", "1,2"]).map (csvParseLine excelDialect) :=
  fast_slow_reader_agreement excelDialect ["a,b", "1,2"] (by simp)

/-- C5 counterexample: on the dataset with header `a,b` and one data row
`1,2`, `FastReader` yields the raw line string `"1,2"` while `SlowReader`
yields the parsed two-field record `["1", "2"]` — the row sequences are not
identical (even read as one-field records, the fast rows differ from the
slow rows). -/
theorem fast_slow_reader_rows_not_identical :
    fastReaderIter ["a,b", "1,2"] = ["1,2"] ∧
    slowReaderIter excelDialect ["a,b", "1,2"] = [["1", "2"]] ∧
    [["1,2"]] ≠ [["1", "2"]] := by
  refine ⟨rfl, by decide, by decide⟩

end BatchScoring
